import Mathlib

/-!
Verification of the inline-highlighting preprocessor.

The program rewrites inline code spans of a book.  Its core is the pure
span classifier `parse_inline_code` in `src/preprocessor.rs`, which decides,
from a span's raw text and an optional default language, what replacement
text to emit and whether that replacement is raw HTML or an ordinary code
span.  Around it, `InlineHighlighterPreprocessor::run` maps every
inline-code event of every chapter's parsed event stream through the
classifier and re-serializes the stream.

Span text is embedded as `List Char` (the Rust code iterates `code.chars()`),
the logging sink as an explicit list of `Diagnostic` values carried in the
result, and the external markdown parser / serializer (pulldown-cmark and
pulldown-cmark-to-cmark, out of scope per the design) as function parameters.
-/

namespace InlineHighlighting

/-- `const ESCAPE_CHAR: char = '\\';` -/
def ESCAPE_CHAR : Char := '\\'

/-- `const LANG_SPEC_START: char = '[';` -/
def LANG_SPEC_START : Char := '['

/-- `const LANG_SPEC_END: char = ']';` -/
def LANG_SPEC_END : Char := ']'

/-- The diagnostics the preprocessor can emit through `log::error!`.
The first two carry the chapter named in the log message. -/
inductive Diagnostic where
  | missingClosing (chapter : String)
  | missingSpace (chapter : String)
  | serializationFailed (error : String)
  deriving DecidableEq

/-- The chapter a diagnostic names, when it names one. -/
def Diagnostic.chapterName : Diagnostic → Option String
  | Diagnostic.missingClosing c => some c
  | Diagnostic.missingSpace c => some c
  | Diagnostic.serializationFailed _ => none

/-- `fn inline_with_highlighting(code: &str, language: &str) -> String`:
`format!("<code class=\"hljs language-{}\">{}</code>", language, code)`. -/
def inline_with_highlighting (code language : List Char) : List Char :=
  "<code class=\"hljs language-".toList ++ language ++ "\">".toList
    ++ code ++ "</code>".toList

/-- Return value of the classifier: the Rust `(String, bool)` pair, plus the
diagnostics the call sent to the logging sink. -/
structure ParseResult where
  text : List Char
  isHtml : Bool
  diagnostics : List Diagnostic
  deriving DecidableEq

/-- The tag-collecting loop of `parse_inline_code`: scan forward pushing
characters into the tag buffer until `LANG_SPEC_END`; `none` when input is
exhausted first, otherwise `some (tag, rest)` with `rest` the characters
after the first `LANG_SPEC_END`. -/
def collectLang : List Char → Option (List Char × List Char)
  | [] => none
  | c :: rest =>
    if c = LANG_SPEC_END then some ([], rest)
    else
      match collectLang rest with
      | none => none
      | some (lang, remaining) => some (c :: lang, remaining)

/-- `fn parse_inline_code(code, default_language, chapter) -> (String, bool)`,
with the emitted diagnostics made explicit.  A direct transcription of
`src/preprocessor.rs` lines 82-146. -/
def parse_inline_code (code : List Char) (default_language : Option (List Char))
    (chapter : String) : ParseResult :=
  match code with
  | [] => ⟨[], false, []⟩
  | ch :: rest =>
    if ch = LANG_SPEC_START then
      match collectLang rest with
      | none =>
        match default_language with
        | some l =>
          ⟨inline_with_highlighting (ch :: rest) l, true,
            [Diagnostic.missingClosing chapter]⟩
        | none => ⟨ch :: rest, false, [Diagnostic.missingClosing chapter]⟩
      | some (lang, remaining) =>
        let language : Option (List Char) :=
          if lang = "none".toList then default_language else some lang
        match remaining with
        | [] =>
          match default_language with
          | some l =>
            ⟨inline_with_highlighting (ch :: rest) l, true,
              [Diagnostic.missingSpace chapter]⟩
          | none => ⟨ch :: rest, false, [Diagnostic.missingSpace chapter]⟩
        | sep :: actual_code =>
          if sep ≠ ' ' then
            match default_language with
            | some l =>
              ⟨inline_with_highlighting (ch :: rest) l, true,
                [Diagnostic.missingSpace chapter]⟩
            | none => ⟨ch :: rest, false, [Diagnostic.missingSpace chapter]⟩
          else
            match language with
            | some l => ⟨inline_with_highlighting actual_code l, true, []⟩
            | none => ⟨actual_code, false, []⟩
    else
      let result : List Char := if ch = ESCAPE_CHAR then rest else ch :: rest
      match default_language with
      | some l => ⟨inline_with_highlighting result l, true, []⟩
      | none => ⟨result, false, []⟩

/-- The pulldown-cmark events the rewriter distinguishes: inline code,
raw HTML, and everything else (opaque payload). -/
inductive Event where
  | Code (text : List Char)
  | Html (text : List Char)
  | Other (payload : String)
  deriving DecidableEq

/-- The per-event transform in `InlineHighlighterPreprocessor::run`:
an inline-code event is classified and becomes an HTML or code event;
every other event is pushed through untouched. -/
def processEvent (default_language : Option (List Char)) (chapter : String) :
    Event → Event
  | Event.Code code =>
    let r := parse_inline_code code default_language chapter
    if r.isHtml then Event.Html r.text else Event.Code r.text
  | e => e

/-- The event loop of `run`: the `for event in parser` loop accumulating
`events`, i.e. a map of `processEvent` over the parsed stream. -/
def processEvents (default_language : Option (List Char)) (chapter : String)
    (events : List Event) : List Event :=
  events.map (processEvent default_language chapter)

/-- A chapter: its name (used in diagnostics) and its markdown content. -/
structure ChapterState where
  name : String
  content : List Char
  deriving DecidableEq

/-- Per-chapter body of `run`'s `for_each_mut` closure.  `parse` and
`serialize` stand for the external pulldown-cmark parser and the
`cmark` serializer.  On `Ok` the chapter content is replaced; on `Err`
the chapter is left untouched and a diagnostic is logged. -/
def processChapter (parse : List Char → List Event)
    (serialize : List Event → Except String (List Char))
    (default_language : Option (List Char)) (chapter : ChapterState) :
    ChapterState × List Diagnostic :=
  let events := processEvents default_language chapter.name (parse chapter.content)
  match serialize events with
  | Except.ok result => ({ chapter with content := result }, [])
  | Except.error error => (chapter, [Diagnostic.serializationFailed error])

/-- A book item: a chapter, or any other item (separator, part title),
which `for_each_mut`'s closure leaves alone. -/
inductive BookItem where
  | Chapter (c : ChapterState)
  | Other (payload : String)
  deriving DecidableEq

/-- `InlineHighlighterPreprocessor::run`: transform every chapter of the
book and return `Ok` of the resulting book. -/
def run (parse : List Char → List Event)
    (serialize : List Event → Except String (List Char))
    (default_language : Option (List Char)) (book : List BookItem) :
    Except String (List BookItem) :=
  Except.ok (book.map (fun item =>
    match item with
    | BookItem.Chapter c =>
      BookItem.Chapter (processChapter parse serialize default_language c).1
    | other => other))

/- ## Helper lemmas -/

theorem collectLang_append (T rest : List Char) (hT : LANG_SPEC_END ∉ T) :
    collectLang (T ++ LANG_SPEC_END :: rest) = some (T, rest) := by
  induction T with
  | nil => simp [collectLang]
  | cons c T ih =>
    have hc : c ≠ LANG_SPEC_END := fun h => hT (h ▸ List.mem_cons_self c T)
    have hT' : LANG_SPEC_END ∉ T := fun h => hT (List.mem_cons_of_mem c h)
    simp [collectLang, hc, ih hT']

theorem collectLang_eq_none (rest : List Char) (h : LANG_SPEC_END ∉ rest) :
    collectLang rest = none := by
  induction rest with
  | nil => rfl
  | cons c rest ih =>
    have hc : c ≠ LANG_SPEC_END := fun hh => h (hh ▸ List.mem_cons_self c rest)
    have h' : LANG_SPEC_END ∉ rest := fun hh => h (List.mem_cons_of_mem c hh)
    simp [collectLang, hc, ih h']

/- ## Claim theorems -/

/-- C1: for every well-formed span `[` T `]` SPACE B (with `]` not among the
tag characters T), the classifier wraps B with class T as raw markup, unless
T is exactly "none", in which case the default language takes over: with a
default D the result is B wrapped with class D as raw markup, and with no
default the result is B unchanged as plain code. -/
theorem wellformed_tag_classification (T B : List Char)
    (dl : Option (List Char)) (chapter : String) (hT : LANG_SPEC_END ∉ T) :
    parse_inline_code (LANG_SPEC_START :: (T ++ LANG_SPEC_END :: ' ' :: B))
        dl chapter =
      if T = "none".toList then
        match dl with
        | some D => ⟨inline_with_highlighting B D, true, []⟩
        | none => ⟨B, false, []⟩
      else ⟨inline_with_highlighting B T, true, []⟩ := by
  simp only [parse_inline_code, collectLang_append T (' ' :: B) hT, if_true,
    if_neg (show ¬(' ' ≠ ' ') by decide)]
  by_cases hnone : T = "none".toList
  · simp only [hnone, if_pos rfl]
    cases dl <;> simp
  · rw [show "none".toList = (['n', 'o', 'n', 'e'] : List Char) from rfl] at hnone
    simp [hnone]

/-- Witness for C1 at the concrete span `[js] x` with no default. -/
theorem wellformed_tag_classification_witness :
    parse_inline_code
        (LANG_SPEC_START :: ((['j', 's'] : List Char)
          ++ LANG_SPEC_END :: ' ' :: ['x'])) none "ch" =
      if (['j', 's'] : List Char) = "none".toList then
        match (none : Option (List Char)) with
        | some D => ⟨inline_with_highlighting ['x'] D, true, []⟩
        | none => ⟨['x'], false, []⟩
      else ⟨inline_with_highlighting ['x'] ['j', 's'], true, []⟩ :=
  wellformed_tag_classification ['j', 's'] ['x'] none "ch" (by decide)

/-- C2: a malformed span starting with `[` — either no `]` follows, or the
character right after the first `]` is missing or not a single space — is
treated as if no tag were present: the entire original span text is the
body, returned unchanged as plain code with no default and wrapped with
the default as raw markup otherwise, and exactly one non-fatal diagnostic
naming the enclosing chapter is emitted. -/
theorem malformed_tag_fallback (rest : List Char) (dl : Option (List Char))
    (chapter : String)
    (hmal : LANG_SPEC_END ∉ rest ∨
      ∃ T rem, rest = T ++ LANG_SPEC_END :: rem ∧ LANG_SPEC_END ∉ T ∧
        (rem = [] ∨ ∃ c body, rem = c :: body ∧ c ≠ ' ')) :
    ∃ d : Diagnostic,
      parse_inline_code (LANG_SPEC_START :: rest) dl chapter =
        (match dl with
         | some l =>
            ⟨inline_with_highlighting (LANG_SPEC_START :: rest) l, true, [d]⟩
         | none => ⟨LANG_SPEC_START :: rest, false, [d]⟩) ∧
      d.chapterName = some chapter := by
  rcases hmal with hnone | ⟨T, rem, hrest, hT, hsep⟩
  · refine ⟨Diagnostic.missingClosing chapter, ?_, rfl⟩
    simp only [parse_inline_code, collectLang_eq_none rest hnone, if_pos rfl]
    cases dl <;> rfl
  · refine ⟨Diagnostic.missingSpace chapter, ?_, rfl⟩
    subst hrest
    simp only [parse_inline_code, collectLang_append T rem hT, if_pos rfl]
    rcases hsep with hnil | ⟨c, body, hrem, hc⟩
    · subst hnil
      cases dl <;> rfl
    · subst hrem
      simp only [if_pos hc]
      cases dl <;> rfl

/-- Witness for C2 at the unterminated span `[x` with no default. -/
theorem malformed_tag_fallback_witness :
    ∃ d : Diagnostic,
      parse_inline_code (LANG_SPEC_START :: ['x']) none "ch" =
        ⟨LANG_SPEC_START :: ['x'], false, [d]⟩ ∧
      d.chapterName = some "ch" :=
  malformed_tag_fallback ['x'] none "ch" (Or.inl (by decide))

/-- C3 counterexample: the claim includes the empty span, but the classifier
returns the empty span as `("", Plain Code)` even when a default language is
configured — it is not wrapped and not raw markup. -/
theorem untagged_default_wrap_counterexample :
    ¬ (parse_inline_code [] (some "js".toList) "ch" =
        ⟨inline_with_highlighting [] "js".toList, true, []⟩) := by
  decide

/-- C3 amended: for every NON-EMPTY span text whose first character is not
the tag-start marker `[`, and any default language D, the classifier returns
raw markup wrapping with class D — the wrapped body being the span text with
one leading escape marker stripped when the first character is `\`, and the
full span text otherwise.  (The empty span instead yields `("", Plain Code)`.) -/
theorem untagged_default_wrap (c : Char) (rest : List Char) (D : List Char)
    (chapter : String) (h1 : c ≠ LANG_SPEC_START) :
    parse_inline_code (c :: rest) (some D) chapter =
      ⟨inline_with_highlighting (if c = ESCAPE_CHAR then rest else c :: rest) D,
        true, []⟩ := by
  simp [parse_inline_code, h1]

/-- Witness for amended C3 at the span `a` with default `js`. -/
theorem untagged_default_wrap_witness :
    parse_inline_code ('a' :: []) (some "js".toList) "ch" =
      ⟨inline_with_highlighting
          (if 'a' = ESCAPE_CHAR then [] else 'a' :: []) "js".toList,
        true, []⟩ :=
  untagged_default_wrap 'a' [] "js".toList "ch" (by decide)

/-- C4: for every default-language value, the classifier applied to the
empty span returns the empty string as plain code. -/
theorem empty_span_plain (dl : Option (List Char)) (chapter : String) :
    parse_inline_code [] dl chapter = ⟨[], false, []⟩ := rfl

/-- C5: a span whose first character is neither the tag-start marker `[` nor
the escape marker `\`, with no default language, comes back unchanged as
plain code. -/
theorem untagged_no_default_plain (c : Char) (rest : List Char)
    (chapter : String) (h1 : c ≠ LANG_SPEC_START) (h2 : c ≠ ESCAPE_CHAR) :
    parse_inline_code (c :: rest) none chapter = ⟨c :: rest, false, []⟩ := by
  simp [parse_inline_code, h1, h2]

/-- Witness for C5 at the span `ab`. -/
theorem untagged_no_default_plain_witness :
    parse_inline_code ('a' :: ['b']) none "ch" = ⟨'a' :: ['b'], false, []⟩ :=
  untagged_no_default_plain 'a' ['b'] "ch" (by decide) (by decide)

/-- C6: a span whose first character is the escape marker `\` has exactly
that one marker stripped and the remainder treated as untagged body text —
returned unchanged as plain code without a default language, wrapped with
the default as raw markup with one — regardless of what follows the marker
(in particular the remainder may itself start with `[` and is not reparsed). -/
theorem escaped_marker_stripped (rest : List Char) (dl : Option (List Char))
    (chapter : String) :
    parse_inline_code (ESCAPE_CHAR :: rest) dl chapter =
      (match dl with
       | some l => ⟨inline_with_highlighting rest l, true, []⟩
       | none => ⟨rest, false, []⟩) := by
  have h1 : ESCAPE_CHAR ≠ LANG_SPEC_START := by decide
  cases dl <;> simp [parse_inline_code, h1]

/-- C7: the wrapped output for resolved language L and body B is exactly the
single string `<code class="hljs language-L">B</code>` — the fixed class
tokens `hljs` and `language-L`, with B inserted verbatim, no escaping. -/
theorem wrap_format (L B : List Char) :
    (inline_with_highlighting B L).asString =
      "<code class=\"hljs language-" ++ L.asString ++ "\">"
        ++ B.asString ++ "</code>" := by
  apply String.ext
  simp [inline_with_highlighting, List.asString, String.toList]

/-- C8: with a default language configured, every non-empty span yields raw
markup — on every path of the classifier (untagged, escaped, well-formed tag,
"none" sentinel, unterminated tag, missing separator) the result is an HTML
wrap; only the empty span yields plain code under a configured default. -/
theorem default_forces_html (code : List Char) (D : List Char)
    (chapter : String) (h : code ≠ []) :
    (parse_inline_code code (some D) chapter).isHtml = true := by
  cases code with
  | nil => exact absurd rfl h
  | cons ch rest =>
    simp only [parse_inline_code]
    split
    · split
      · rfl
      · split
        · rfl
        · split
          · rfl
          · split
            · rfl
            · rename_i heq
              split at heq
              · exact absurd heq (by simp)
              · exact absurd heq (by simp)
    · rfl

/-- Witness for C8 at the span `a` with default `js`. -/
theorem default_forces_html_witness :
    (parse_inline_code ['a'] (some "js".toList) "ch").isHtml = true :=
  default_forces_html ['a'] "js".toList "ch" (by decide)

/-- C9: the rewriter preserves the event sequence's length and order; every
event at a position is the per-event transform of the input event at the same
position; a non-inline-code event appears unchanged in its original position;
and an inline-code event is replaced in place by a raw-HTML event when the
classifier reports raw markup and by an inline-code event carrying the
classifier's output text otherwise. -/
theorem rewriter_frame (dl : Option (List Char)) (chapter : String)
    (events : List Event) :
    (processEvents dl chapter events).length = events.length ∧
    (∀ i : Nat, (processEvents dl chapter events)[i]? =
      (events[i]?).map (processEvent dl chapter)) ∧
    (∀ (i : Nat) (e : Event), events[i]? = some e → (∀ s, e ≠ Event.Code s) →
      (processEvents dl chapter events)[i]? = some e) ∧
    (∀ (i : Nat) (s : List Char), events[i]? = some (Event.Code s) →
      (processEvents dl chapter events)[i]? =
        some (if (parse_inline_code s dl chapter).isHtml then
                Event.Html (parse_inline_code s dl chapter).text
              else Event.Code (parse_inline_code s dl chapter).text)) := by
  refine ⟨?_, ?_, ?_, ?_⟩
  · rw [processEvents]
    exact List.length_map _ _
  · intro i
    rw [processEvents]
    exact List.getElem?_map _ _ _
  · intro i e he hcode
    rw [processEvents, List.getElem?_map, he]
    cases e with
    | Code s => exact absurd rfl (hcode s)
    | Html t => rfl
    | Other p => rfl
  · intro i s he
    rw [processEvents, List.getElem?_map, he]
    rfl

/-- Witness for C9: in a two-event stream, the non-code heading event is
untouched in place, and the code event is rewritten in place. -/
theorem rewriter_frame_witness :
    (processEvents none "ch" [Event.Other "heading", Event.Code ['x']])[0]? =
      some (Event.Other "heading") :=
  (rewriter_frame none "ch" [Event.Other "heading", Event.Code ['x']]).2.2.1
    0 (Event.Other "heading") rfl (fun _ hs => Event.noConfusion hs)

/-- C10: when re-serialization of a chapter's transformed event sequence
fails, that chapter is left exactly unmodified, a diagnostic is logged, and
the run still succeeds, processing every chapter of the book (the failing
chapter appearing unchanged at its original position). -/
theorem serialization_failure_atomic (parse : List Char → List Event)
    (serialize : List Event → Except String (List Char))
    (dl : Option (List Char)) (c : ChapterState) (err : String)
    (h : serialize (processEvents dl c.name (parse c.content)) =
      Except.error err) :
    (processChapter parse serialize dl c).1 = c ∧
    (processChapter parse serialize dl c).2 =
      [Diagnostic.serializationFailed err] ∧
    ∀ pre post : List BookItem,
      ∃ out, run parse serialize dl (pre ++ BookItem.Chapter c :: post) =
          Except.ok out ∧
        out.length = pre.length + 1 + post.length ∧
        out[pre.length]? = some (BookItem.Chapter c) := by
  have hpc : processChapter parse serialize dl c =
      (c, [Diagnostic.serializationFailed err]) := by
    rw [processChapter]
    rw [h]
  refine ⟨by rw [hpc], by rw [hpc], ?_⟩
  intro pre post
  refine ⟨_, rfl, ?_, ?_⟩
  · simp only [List.length_map, List.length_append, List.length_cons]
    omega
  · rw [List.getElem?_map]
    have hidx : (pre ++ BookItem.Chapter c :: post)[pre.length]? =
        some (BookItem.Chapter c) := by
      rw [List.getElem?_append_right (Nat.le_refl _)]
      simp
    rw [hidx]
    simp [hpc]

/-- Witness for C10 with a serializer that always fails. -/
theorem serialization_failure_atomic_witness :
    (processChapter (fun _ => []) (fun _ => Except.error "boom") none
        ⟨"ch", ['x']⟩).1 = ⟨"ch", ['x']⟩ :=
  (serialization_failure_atomic (fun _ => []) (fun _ => Except.error "boom")
    none ⟨"ch", ['x']⟩ "boom" rfl).1

end InlineHighlighting
